import Mathlib

/-!
Verification of the Koules demo (src/demos/Koules.cpp): a shallow embedding,
over the real numbers, of the physical simulation and control layer of the
game, together with theorems checking the specified properties of the
collision resolver, the dynamics integrator, the bang-bang controller, the
steering sampler, the goal region, the directed propagation procedure and
the recursive level-reduction step.

The system state is modelled as a flat real vector q : Nat -> Real with the
layout of the source (lines 173-176): koule i occupies indices 4*i..4*i+3
(position x, y then velocity x, y), the ship occupies indices
4*n..4*n+3 (position, velocity) and index 4*n+4 holds the ship heading,
where n is the number of koules.
-/

open scoped Classical

noncomputable section

namespace Koules

/-- Side length of the square workspace (Koules.cpp line 82). -/
def sideLength : ℝ := 1

/-- Mass of each koule (line 84). -/
def kouleMass : ℝ := 0.5

/-- Radius of each koule (line 85). -/
def kouleRadius : ℝ := 0.015

/-- Maximal acceleration of the ship (line 87). -/
def shipAcceleration : ℝ := 1

/-- Maximal angular velocity of the ship (line 88). -/
def shipRotVel : ℝ := Real.pi

/-- Mass of the ship (line 89). -/
def shipMass : ℝ := 0.75

/-- Radius of the ship (line 90). -/
def shipRadius : ℝ := 0.03

/-- Upper bound of the control magnitude (line 91). -/
def shipVmax : ℝ := 0.5 / shipAcceleration

/-- Lower bound of the control magnitude (line 92). -/
def shipVmin : ℝ := 0.1 * shipVmax

/-- Spring constant of the koule dynamics (line 94). -/
def lambda_c : ℝ := 4

/-- Drag coefficient of the koule dynamics (line 95). -/
def h : ℝ := 0.05

/-- Fixed Euler sub-step of the integrator (line 96). -/
def integrationStepSize : ℝ := 1e-2

/-- Propagation step size of the planner (line 97). -/
def propagationStepSize : ℝ := 0.05

/-- Velocity-error threshold of the bang-bang controller (line 100). -/
def shipDelta : ℝ := 0.5 * shipAcceleration * propagationStepSize

/-- Heading-error threshold of the bang-bang controller (line 101). -/
def shipEps : ℝ := 0.5 * shipRotVel * propagationStepSize

/-- Collision tolerance (line 468): static const float delta = 1e-5. -/
def delta : ℝ := 1e-5

/-- Goal threshold set in the KoulesGoal constructor (line 547). -/
def threshold : ℝ := 0.01

/-- Mass table of KoulesStateSpace (lines 168-171): every body has the koule
mass except body n, the ship. -/
def getMass (n i : ℕ) : ℝ := if i = n then shipMass else kouleMass

/-- Radius table of KoulesStateSpace (lines 168-171): every body has the
koule radius except body n, the ship. -/
def getRadius (n i : ℕ) : ℝ := if i = n then shipRadius else kouleRadius

/-- Signed SO(2) distance (lines 112-120): the difference x - y shifted by
one period when it leaves [-pi, pi]. -/
def signedSO2Distance (x y : ℝ) : ℝ :=
  if x - y < -Real.pi then x - y + 2 * Real.pi
  else if x - y > Real.pi then x - y - 2 * Real.pi
  else x - y

/-- Planar atan2 as used on line 396: the argument of the complex number
with real part x and imaginary part y, in (-pi, pi]. -/
def atan2 (y x : ℝ) : ℝ := Complex.arg ⟨x, y⟩

/-- Bang-bang command computed at the head of KoulesStatePropagator
propagate (lines 395-409) from the control cval and the current state q:
zero thrust and torque when the velocity error is within shipDelta,
full thrust along the current heading when the heading error is within
shipEps, otherwise a pure torque of the sign of the heading error.
The result packs (u[0], u[1], u[2]) = (thrust x, thrust y, torque). -/
def shipControl (n : ℕ) (cval : ℝ × ℝ) (q : ℕ → ℝ) : ℝ × ℝ × ℝ :=
  let v0 := cval.1 - q (4*n+2)
  let v1 := cval.2 - q (4*n+3)
  let deltaTheta := signedSO2Distance (atan2 v1 v0) (q (4*n+4))
  if v0 * v0 + v1 * v1 > shipDelta * shipDelta then
    if |deltaTheta| < shipEps then
      (shipAcceleration * Real.cos (q (4*n+4)), shipAcceleration * Real.sin (q (4*n+4)), 0)
    else if deltaTheta > 0 then (0, 0, shipRotVel)
    else (0, 0, -shipRotVel)
  else (0, 0, 0)

/-- Right-hand side of the ODE (lines 424-442): for each koule, position
integrates velocity and velocity follows a damped spring toward the arena
center; the ship integrates its velocity and the bang-bang command u.
Index arithmetic: for idx in a koule block, idx mod 4 < 2 are the position
entries and the two others the velocity entries. -/
def ode (n : ℕ) (u : ℝ × ℝ × ℝ) (q : ℕ → ℝ) : ℕ → ℝ := fun idx =>
  if idx < 4*n then
    if idx % 4 < 2 then q (idx + 2)
    else (0.5 * sideLength - q (idx - 2)) * lambda_c - q idx * h
  else if idx = 4*n ∨ idx = 4*n + 1 then q (idx + 2)
  else if idx = 4*n + 2 then u.1
  else if idx = 4*n + 3 then u.2.1
  else if idx = 4*n + 4 then u.2.2
  else 0

/-- Difference of the x coordinates of bodies i and j (line 470, dx). -/
def colDx (i j : ℕ) (q : ℕ → ℝ) : ℝ := q (4*i) - q (4*j)

/-- Difference of the y coordinates of bodies i and j (line 470, dy). -/
def colDy (i j : ℕ) (q : ℕ → ℝ) : ℝ := q (4*i+1) - q (4*j+1)

/-- Center distance of bodies i and j (line 477): the square root of the
squared distance computed on line 471. -/
def colDist (i j : ℕ) (q : ℕ → ℝ) : ℝ :=
  Real.sqrt (colDx i j q * colDx i j q + colDy i j q * colDy i j q)

/-- First component of the unit collision normal (line 479). -/
def normal0 (i j : ℕ) (q : ℕ → ℝ) : ℝ := colDx i j q / colDist i j q

/-- Second component of the unit collision normal (line 479). -/
def normal1 (i j : ℕ) (q : ℕ → ℝ) : ℝ := colDy i j q / colDist i j q

/-- Scalar projection of the velocity of body i on the normal (line 483). -/
def aNormal (i j : ℕ) (q : ℕ → ℝ) : ℝ :=
  normal0 i j q * q (4*i+2) + normal1 i j q * q (4*i+3)

/-- Scalar projection of the velocity of body i on the tangent (line 484);
the tangent is (-normal1, normal0) as on line 480. -/
def aTangentPrime (i j : ℕ) (q : ℕ → ℝ) : ℝ :=
  -normal1 i j q * q (4*i+2) + normal0 i j q * q (4*i+3)

/-- Scalar projection of the velocity of body j on the normal (line 485). -/
def bNormal (i j : ℕ) (q : ℕ → ℝ) : ℝ :=
  normal0 i j q * q (4*j+2) + normal1 i j q * q (4*j+3)

/-- Scalar projection of the velocity of body j on the tangent (line 486). -/
def bTangentPrime (i j : ℕ) (q : ℕ → ℝ) : ℝ :=
  -normal1 i j q * q (4*j+2) + normal0 i j q * q (4*j+3)

/-- One-dimensional elastic post-collision normal velocity of body i
(line 491). -/
def aNormalPrime (n i j : ℕ) (q : ℕ → ℝ) : ℝ :=
  (aNormal i j q * (getMass n i - getMass n j) + 2 * getMass n j * bNormal i j q)
    / (getMass n i + getMass n j)

/-- One-dimensional elastic post-collision normal velocity of body j
(line 492). -/
def bNormalPrime (n i j : ℕ) (q : ℕ → ℝ) : ℝ :=
  (bNormal i j q * (getMass n j - getMass n i) + 2 * getMass n i * aNormal i j q)
    / (getMass n i + getMass n j)

/-- Post-collision x velocity of body i (lines 495-496 and 502). -/
def aNewVel0 (n i j : ℕ) (q : ℕ → ℝ) : ℝ :=
  normal0 i j q * aNormalPrime n i j q + -normal1 i j q * aTangentPrime i j q

/-- Post-collision y velocity of body i (lines 495-496 and 502). -/
def aNewVel1 (n i j : ℕ) (q : ℕ → ℝ) : ℝ :=
  normal1 i j q * aNormalPrime n i j q + normal0 i j q * aTangentPrime i j q

/-- Post-collision x velocity of body j (lines 497-498 and 501). -/
def bNewVel0 (n i j : ℕ) (q : ℕ → ℝ) : ℝ :=
  normal0 i j q * bNormalPrime n i j q + -normal1 i j q * bTangentPrime i j q

/-- Post-collision y velocity of body j (lines 497-498 and 501). -/
def bNewVel1 (n i j : ℕ) (q : ℕ → ℝ) : ℝ :=
  normal1 i j q * bNormalPrime n i j q + normal0 i j q * bTangentPrime i j q

/-- Collision test of checkCollision (line 474): the squared center
distance is below the squared sum of radii plus tolerance, and the bodies
approach each other (the relative velocity of j with respect to i has a
positive component along the vector from j to i). -/
def collisionCond (n i j : ℕ) (q : ℕ → ℝ) : Prop :=
  colDx i j q * colDx i j q + colDy i j q * colDy i j q
      < (getRadius n i + getRadius n j + delta) * (getRadius n i + getRadius n j + delta)
    ∧ (q (4*j+2) - q (4*i+2)) * colDx i j q + (q (4*j+3) - q (4*i+3)) * colDy i j q > 0

/-- State written back by checkCollision when a collision happens
(lines 511-519): both bodies get their post-collision velocities, and their
positions advance by one sub-step of the post-collision velocity; all other
entries of q are untouched. -/
def collisionResponse (n i j : ℕ) (dt : ℝ) (q : ℕ → ℝ) : ℕ → ℝ := fun idx =>
  if idx = 4*i then q (4*i) + aNewVel0 n i j q * dt
  else if idx = 4*i+1 then q (4*i+1) + aNewVel1 n i j q * dt
  else if idx = 4*i+2 then aNewVel0 n i j q
  else if idx = 4*i+3 then aNewVel1 n i j q
  else if idx = 4*j then q (4*j) + bNewVel0 n i j q * dt
  else if idx = 4*j+1 then q (4*j+1) + bNewVel1 n i j q * dt
  else if idx = 4*j+2 then bNewVel0 n i j q
  else if idx = 4*j+3 then bNewVel1 n i j q
  else q idx

/-- KoulesStatePropagator checkCollision (lines 466-525): returns whether
bodies i and j collide, together with the state after the elastic response
(the state unchanged when they do not). -/
def checkCollision (n i j : ℕ) (dt : ℝ) (q : ℕ → ℝ) : Bool × (ℕ → ℝ) :=
  if collisionCond n i j q then (true, collisionResponse n i j dt q)
  else (false, q)

/-- Ordered list of the body pairs checked in update (lines 448-449):
for every i below n, all pairs (i, j) with j from i+1 up to n, ascending. -/
def collisionPairs (n : ℕ) : List (ℕ × ℕ) :=
  (List.range n).flatMap fun i => (List.range (n - i)).map fun k => (i, i + 1 + k)

/-- Collision phase of update (lines 446-451): the pair loop threading the
mutated state through checkCollision and flagging both members of every
colliding pair. -/
def collisionPass (n : ℕ) (dt : ℝ) (q0 : ℕ → ℝ) : (ℕ → ℝ) × (ℕ → Bool) :=
  (collisionPairs n).foldl
    (fun st p =>
      ((checkCollision n p.1 p.2 dt st.1).2,
       if (checkCollision n p.1 p.2 dt st.1).1 then
         (fun k => if k = p.1 ∨ k = p.2 then true else st.2 k)
       else st.2))
    (q0, fun _ => false)

/-- KoulesStatePropagator update (lines 444-461): after the collision
phase, every unflagged koule advances its four entries by one Euler step of
qdot, and the unflagged ship advances its five entries (including the
heading); flagged bodies keep the state written by the collision response. -/
def update (n : ℕ) (dt : ℝ) (qdot : ℕ → ℝ) (q : ℕ → ℝ) : ℕ → ℝ := fun idx =>
  if idx < 4*n then
    if (collisionPass n dt q).2 (idx / 4) then (collisionPass n dt q).1 idx
    else (collisionPass n dt q).1 idx + qdot idx * dt
  else if idx < 4*n + 5 then
    if (collisionPass n dt q).2 n then (collisionPass n dt q).1 idx
    else (collisionPass n dt q).1 idx + qdot idx * dt
  else (collisionPass n dt q).1 idx

/-- Integration loop of propagate (lines 410-414): numSteps times, compute
qdot by the ODE with the fixed command u and apply one update of size dt. -/
def propagateSteps (n : ℕ) (u : ℝ × ℝ × ℝ) (dt : ℝ) : ℕ → (ℕ → ℝ) → ℕ → ℝ
  | 0, q => q
  | k+1, q => propagateSteps n u dt k (update n dt (ode n u q) q)

/-- State vector after the integration loop of propagate (lines 386-414):
numSteps = ceil(duration / integrationStepSize), dt = duration / numSteps,
and the bang-bang command is derived once, from the start state. -/
def propagateQ (n : ℕ) (cval : ℝ × ℝ) (duration : ℝ) (q0 : ℕ → ℝ) : ℕ → ℝ :=
  propagateSteps n (shipControl n cval q0)
    (duration / (Nat.ceil (duration / integrationStepSize) : ℝ))
    (Nat.ceil (duration / integrationStepSize)) q0

/-- Modelled from the spec: the final heading normalization of propagate
(lines 416-419) calls SO2StateSpace enforceBounds of the OMPL library,
whose code is not under src; the spec (sections 3 and 4.1) states that it
re-normalizes the ship heading into (-pi, pi], so we model it as the unique
representative of theta modulo 2*pi in that interval. -/
def enforceSO2Bounds (θ : ℝ) : ℝ :=
  θ - 2 * Real.pi * ((⌈(θ - Real.pi) / (2 * Real.pi)⌉ : ℤ) : ℝ)

/-- KoulesStatePropagator propagate (lines 386-420): the integrated state
with the heading entry normalized. -/
def propagate (n : ℕ) (cval : ℝ × ℝ) (duration : ℝ) (q0 : ℕ → ℝ) : ℕ → ℝ := fun idx =>
  if idx = 4*n + 4 then enforceSO2Bounds (propagateQ n cval duration q0 idx)
  else propagateQ n cval duration q0 idx

/-- Distance of koule i to the nearest arena edge, shifted by radius and
threshold: the per-koule term accumulated on lines 560-562. -/
def kouleEdgeDist (v : ℕ → ℝ) (i : ℕ) : ℝ :=
  min (min (v (4*i)) (sideLength - v (4*i))) (min (v (4*i+1)) (sideLength - v (4*i+1)))
    - kouleRadius + threshold

/-- KoulesGoal distanceGoal (lines 551-567): the minimum, over the koules,
of the shifted distance to the nearest edge, started at sideLength and
clamped at zero. -/
def distanceGoal (n : ℕ) (v : ℕ → ℝ) : ℝ :=
  let m := (List.range n).foldl (fun minDist i => min minDist (kouleEdgeDist v i)) sideLength
  if m < 0 then 0 else m

/-- Modelled from the spec: goal satisfaction tests the distance through
GoalRegion isSatisfied of the OMPL library, whose code is not under src;
the spec (section 4.6) states the goal is satisfied at cost 0. -/
def goalSatisfied (n : ℕ) (s : ℕ → ℝ) : Prop := distanceGoal n s = 0

/-- Koule filter of planAllLevelsRecursive (line 775): a koule is carried
into the next sub-problem when both position coordinates are strictly
inside the workspace margin. -/
def keepKoule (s : ℕ → ℝ) (i : ℕ) : Prop :=
  min (s (4*i)) (s (4*i+1)) > kouleRadius
    ∧ max (s (4*i)) (s (4*i+1)) < sideLength - kouleRadius

/-- Koule part of the next start state (lines 773-777): the four state
entries of every kept koule, in ascending koule order. -/
def nextStartKoules (s : ℕ → ℝ) : ℕ → List ℝ
  | 0 => []
  | i+1 =>
    nextStartKoules s i ++
      (if keepKoule s i then [s (4*i), s (4*i+1), s (4*i+2), s (4*i+3)] else [])

/-- Next start state built by planAllLevelsRecursive (lines 772-780): the
kept koules followed by the five ship entries. -/
def nextStart (n : ℕ) (s : ℕ → ℝ) : List ℝ :=
  nextStartKoules s n ++ [s (4*n), s (4*n+1), s (4*n+2), s (4*n+3), s (4*n+4)]

/-- Numerical-noise threshold of steer (line 267):
std numeric limits float epsilon, the value 2 to the power -23. -/
def floatEpsilon : ℝ := 1 / 2 ^ 23

/-- Undirected control sample of KoulesControlSampler sample (lines 238-247):
a velocity of magnitude r at orientation theta, where r is drawn uniformly
from the control bounds and theta uniformly from [0, 2*pi]. -/
def undirectedSample (r θ : ℝ) : ℝ × ℝ := (r * Real.cos θ, r * Real.sin θ)

/-- KoulesControlSampler steer (lines 259-278), with the random draws made
explicit: u models the uniform draw from the control bounds, and (r, θ)
the draws of the undirected fallback sample. -/
def steer (n : ℕ) (q : ℕ → ℝ) (x y u r θ : ℝ) : ℝ × ℝ :=
  let dx := x - q (4*n)
  let dy := y - q (4*n+1)
  let xNrm2 := dx * dx + dy * dy
  if xNrm2 > floatEpsilon then
    (u / Real.sqrt xNrm2 * dx, u / Real.sqrt xNrm2 * dy)
  else undirectedSample r θ

/-- Loop of KoulesDirectedControlSampler sampleTo (lines 314-339), modelled
over an abstract state type: f is one propagation step with the fixed
control and step size, g the goal test and v the validity test. The two
state buffers dest and the allocated temp are tracked by value: t1 and t2
are the contents of the pointers temp1 and temp2, and t2isD records whether
temp2 currently is the dest buffer (initially temp1 is dest, and each swap
of the pointers toggles the flag). The goal test of line 319 reads the dest
buffer, which holds the freshly propagated state only when temp2 is dest,
exactly as in the source. fuel is steps - i, so the loop exits at i = steps
returning r = steps with the content of temp1. -/
def sampleToLoop {S : Type} (f : S → S) (g v : S → Bool) : ℕ → ℕ → S → Bool → ℕ × S
  | 0, i, t1, _ => (i, t1)
  | fuel+1, i, t1, t2isD =>
    let t2 := f t1
    if g (if t2isD then t2 else t1) then (i+1, t2)
    else if v t2 then sampleToLoop f g v fuel (i+1) t2 (!t2isD)
    else (i, t1)

/-- KoulesDirectedControlSampler sampleTo (lines 296-349), modelled over an
abstract state type with the steered control folded into the step function
f: the first step is propagated, the goal then the validity of the result
are tested, and on success the buffered loop continues for up to steps
steps; the result is the pair (steps advanced, final state written to
dest). -/
def sampleTo {S : Type} (f : S → S) (g v : S → Bool) (steps : ℕ) (source : S) : ℕ × S :=
  let dest := f source
  if g dest then (1, dest)
  else if v dest then sampleToLoop f g v (steps - 1) 1 dest false
  else (0, source)

/-- Concrete one-koule state used by the witnesses: koule at (1/2, 1/2)
with velocity (1, 0), ship at (13/25, 1/2) at rest with heading 3/10. -/
def qW : ℕ → ℝ := fun idx =>
  if idx = 0 then 1/2 else if idx = 1 then 1/2
  else if idx = 2 then 1 else if idx = 3 then 0
  else if idx = 4 then 13/25 else if idx = 5 then 1/2
  else if idx = 6 then 0 else if idx = 7 then 0
  else if idx = 8 then 3/10 else 0

/-! ### Helper lemmas -/

/-- Normalization into (-pi, pi]: the wrapped angle always lands in the
half-open interval. -/
theorem enforceSO2Bounds_mem (θ : ℝ) :
    -Real.pi < enforceSO2Bounds θ ∧ enforceSO2Bounds θ ≤ Real.pi := by
  have hpi : (0:ℝ) < 2 * Real.pi := by linarith [Real.pi_pos]
  have h1 : (θ - Real.pi) / (2 * Real.pi) ≤ ((⌈(θ - Real.pi) / (2 * Real.pi)⌉ : ℤ) : ℝ) :=
    Int.le_ceil _
  have h2 : ((⌈(θ - Real.pi) / (2 * Real.pi)⌉ : ℤ) : ℝ) < (θ - Real.pi) / (2 * Real.pi) + 1 :=
    Int.ceil_lt_add_one _
  have e1 : θ - Real.pi ≤ ((⌈(θ - Real.pi) / (2 * Real.pi)⌉ : ℤ) : ℝ) * (2 * Real.pi) := by
    rwa [div_le_iff₀ hpi] at h1
  have e2 : ((⌈(θ - Real.pi) / (2 * Real.pi)⌉ : ℤ) : ℝ) * (2 * Real.pi)
      < (θ - Real.pi) + (2 * Real.pi) := by
    have h3 := mul_lt_mul_of_pos_right h2 hpi
    rwa [add_mul, one_mul, div_mul_cancel₀ _ hpi.ne'] at h3
  constructor
  · simp only [enforceSO2Bounds]; nlinarith
  · simp only [enforceSO2Bounds]; nlinarith

/-- Entries of q outside the two 4-entry blocks of bodies i and j are not
touched by checkCollision. -/
theorem checkCollision_apply_ne (n i j : ℕ) (dt : ℝ) (q : ℕ → ℝ) (idx : ℕ)
    (hne : idx ≠ 4*i ∧ idx ≠ 4*i+1 ∧ idx ≠ 4*i+2 ∧ idx ≠ 4*i+3
      ∧ idx ≠ 4*j ∧ idx ≠ 4*j+1 ∧ idx ≠ 4*j+2 ∧ idx ≠ 4*j+3) :
    (checkCollision n i j dt q).2 idx = q idx := by
  obtain ⟨h1, h2, h3, h4, h5, h6, h7, h8⟩ := hne
  by_cases hc : collisionCond n i j q
  · simp only [checkCollision, if_pos hc, collisionResponse,
      if_neg h1, if_neg h2, if_neg h3, if_neg h4, if_neg h5, if_neg h6, if_neg h7, if_neg h8]
  · simp only [checkCollision, if_neg hc]

/-- Every pair produced by collisionPairs has first member below n and
second member at most n. -/
theorem collisionPairs_mem_bounds (n : ℕ) :
    ∀ p ∈ collisionPairs n, p.1 < n ∧ p.2 ≤ n := by
  intro p hp
  simp only [collisionPairs, List.mem_flatMap, List.mem_map, List.mem_range] at hp
  obtain ⟨i, hi, k, hk, rfl⟩ := hp
  exact ⟨hi, by omega⟩

/-- The collision fold never writes the ship heading entry, because every
pair it resolves touches only body blocks with index at most n. -/
theorem collisionFold_preserve (n : ℕ) (dt : ℝ) (ps : List (ℕ × ℕ))
    (hps : ∀ p ∈ ps, p.1 < n ∧ p.2 ≤ n) (st : (ℕ → ℝ) × (ℕ → Bool)) :
    (ps.foldl
      (fun (st : (ℕ → ℝ) × (ℕ → Bool)) p =>
        ((checkCollision n p.1 p.2 dt st.1).2,
         if (checkCollision n p.1 p.2 dt st.1).1 then
           (fun k => if k = p.1 ∨ k = p.2 then true else st.2 k)
         else st.2)) st).1 (4*n + 4) = st.1 (4*n + 4) := by
  induction ps generalizing st with
  | nil => rfl
  | cons p t ih =>
    rw [List.foldl_cons]
    rw [ih (fun p2 hp2 => hps p2 (List.mem_cons_of_mem p hp2)) _]
    have hp := hps p (List.mem_cons_self p t)
    exact checkCollision_apply_ne n p.1 p.2 dt st.1 (4*n + 4)
      ⟨by omega, by omega, by omega, by omega, by omega, by omega, by omega, by omega⟩

/-- The state produced by the collision phase of update keeps the ship
heading entry unchanged. -/
theorem collisionPass_fst_heading (n : ℕ) (dt : ℝ) (q : ℕ → ℝ) :
    (collisionPass n dt q).1 (4*n + 4) = q (4*n + 4) :=
  collisionFold_preserve n dt (collisionPairs n) (collisionPairs_mem_bounds n) (q, fun _ => false)

/-- Every body mass is positive. -/
theorem getMass_pos (n k : ℕ) : 0 < getMass n k := by
  simp only [getMass]
  split <;> norm_num [shipMass, kouleMass]

/-- The unit collision normal has unit norm when the centers differ. -/
theorem normal_sq_one (i j : ℕ) (q : ℕ → ℝ)
    (hpos : 0 < colDx i j q * colDx i j q + colDy i j q * colDy i j q) :
    normal0 i j q ^ 2 + normal1 i j q ^ 2 = 1 := by
  have hd : colDist i j q ^ 2 = colDx i j q * colDx i j q + colDy i j q * colDy i j q := by
    simp only [colDist]
    exact Real.sq_sqrt hpos.le
  have hdne : colDist i j q ≠ 0 := by
    have hd0 : 0 < colDist i j q := by
      simp only [colDist]
      exact Real.sqrt_pos.mpr hpos
    exact hd0.ne'
  simp only [normal0, normal1, div_pow, div_add_div_same]
  rw [div_eq_one_iff_eq (pow_ne_zero 2 hdne), hd]
  ring

/-- Momentum of the colliding pair along the x axis is preserved by the
elastic response velocities. -/
theorem newVel_momentum_x (n i j : ℕ) (q : ℕ → ℝ)
    (hpos : 0 < colDx i j q * colDx i j q + colDy i j q * colDy i j q) :
    getMass n i * aNewVel0 n i j q + getMass n j * bNewVel0 n i j q
      = getMass n i * q (4*i+2) + getMass n j * q (4*j+2) := by
  have hn := normal_sq_one i j q hpos
  have hm : getMass n i + getMass n j ≠ 0 := (add_pos (getMass_pos n i) (getMass_pos n j)).ne'
  have key : getMass n i * aNormalPrime n i j q + getMass n j * bNormalPrime n i j q
      = getMass n i * aNormal i j q + getMass n j * bNormal i j q := by
    simp only [aNormalPrime, bNormalPrime]
    field_simp
    ring
  calc getMass n i * aNewVel0 n i j q + getMass n j * bNewVel0 n i j q
      = normal0 i j q * (getMass n i * aNormalPrime n i j q + getMass n j * bNormalPrime n i j q)
        + -normal1 i j q
          * (getMass n i * aTangentPrime i j q + getMass n j * bTangentPrime i j q) := by
        simp only [aNewVel0, bNewVel0]; ring
    _ = normal0 i j q * (getMass n i * aNormal i j q + getMass n j * bNormal i j q)
        + -normal1 i j q
          * (getMass n i * aTangentPrime i j q + getMass n j * bTangentPrime i j q) := by
        rw [key]
    _ = getMass n i * q (4*i+2) + getMass n j * q (4*j+2) := by
        simp only [aNormal, bNormal, aTangentPrime, bTangentPrime]
        linear_combination (getMass n i * q (4*i+2) + getMass n j * q (4*j+2)) * hn

/-- Momentum of the colliding pair along the y axis is preserved by the
elastic response velocities. -/
theorem newVel_momentum_y (n i j : ℕ) (q : ℕ → ℝ)
    (hpos : 0 < colDx i j q * colDx i j q + colDy i j q * colDy i j q) :
    getMass n i * aNewVel1 n i j q + getMass n j * bNewVel1 n i j q
      = getMass n i * q (4*i+3) + getMass n j * q (4*j+3) := by
  have hn := normal_sq_one i j q hpos
  have hm : getMass n i + getMass n j ≠ 0 := (add_pos (getMass_pos n i) (getMass_pos n j)).ne'
  have key : getMass n i * aNormalPrime n i j q + getMass n j * bNormalPrime n i j q
      = getMass n i * aNormal i j q + getMass n j * bNormal i j q := by
    simp only [aNormalPrime, bNormalPrime]
    field_simp
    ring
  calc getMass n i * aNewVel1 n i j q + getMass n j * bNewVel1 n i j q
      = normal1 i j q * (getMass n i * aNormalPrime n i j q + getMass n j * bNormalPrime n i j q)
        + normal0 i j q
          * (getMass n i * aTangentPrime i j q + getMass n j * bTangentPrime i j q) := by
        simp only [aNewVel1, bNewVel1]; ring
    _ = normal1 i j q * (getMass n i * aNormal i j q + getMass n j * bNormal i j q)
        + normal0 i j q
          * (getMass n i * aTangentPrime i j q + getMass n j * bTangentPrime i j q) := by
        rw [key]
    _ = getMass n i * q (4*i+3) + getMass n j * q (4*j+3) := by
        simp only [aNormal, bNormal, aTangentPrime, bTangentPrime]
        linear_combination (getMass n i * q (4*i+3) + getMass n j * q (4*j+3)) * hn

/-- Kinetic energy of the colliding pair is preserved by the elastic
response velocities. -/
theorem newVel_energy (n i j : ℕ) (q : ℕ → ℝ)
    (hpos : 0 < colDx i j q * colDx i j q + colDy i j q * colDy i j q) :
    getMass n i * (aNewVel0 n i j q ^ 2 + aNewVel1 n i j q ^ 2)
      + getMass n j * (bNewVel0 n i j q ^ 2 + bNewVel1 n i j q ^ 2)
      = getMass n i * (q (4*i+2) ^ 2 + q (4*i+3) ^ 2)
        + getMass n j * (q (4*j+2) ^ 2 + q (4*j+3) ^ 2) := by
  have hn := normal_sq_one i j q hpos
  have hm : getMass n i + getMass n j ≠ 0 := (add_pos (getMass_pos n i) (getMass_pos n j)).ne'
  have keyE : getMass n i * aNormalPrime n i j q ^ 2 + getMass n j * bNormalPrime n i j q ^ 2
      = getMass n i * aNormal i j q ^ 2 + getMass n j * bNormal i j q ^ 2 := by
    simp only [aNormalPrime, bNormalPrime]
    field_simp
    ring
  calc getMass n i * (aNewVel0 n i j q ^ 2 + aNewVel1 n i j q ^ 2)
      + getMass n j * (bNewVel0 n i j q ^ 2 + bNewVel1 n i j q ^ 2)
      = (normal0 i j q ^ 2 + normal1 i j q ^ 2)
        * (getMass n i * (aNormalPrime n i j q ^ 2 + aTangentPrime i j q ^ 2)
          + getMass n j * (bNormalPrime n i j q ^ 2 + bTangentPrime i j q ^ 2)) := by
        simp only [aNewVel0, aNewVel1, bNewVel0, bNewVel1]; ring
    _ = getMass n i * (aNormalPrime n i j q ^ 2 + aTangentPrime i j q ^ 2)
          + getMass n j * (bNormalPrime n i j q ^ 2 + bTangentPrime i j q ^ 2) := by
        rw [hn, one_mul]
    _ = (getMass n i * aNormalPrime n i j q ^ 2 + getMass n j * bNormalPrime n i j q ^ 2)
          + (getMass n i * aTangentPrime i j q ^ 2 + getMass n j * bTangentPrime i j q ^ 2) := by
        ring
    _ = (getMass n i * aNormal i j q ^ 2 + getMass n j * bNormal i j q ^ 2)
          + (getMass n i * aTangentPrime i j q ^ 2 + getMass n j * bTangentPrime i j q ^ 2) := by
        rw [keyE]
    _ = getMass n i * (q (4*i+2) ^ 2 + q (4*i+3) ^ 2)
          + getMass n j * (q (4*j+2) ^ 2 + q (4*j+3) ^ 2) := by
        simp only [aNormal, bNormal, aTangentPrime, bTangentPrime]
        linear_combination (getMass n i * (q (4*i+2) ^ 2 + q (4*i+3) ^ 2)
          + getMass n j * (q (4*j+2) ^ 2 + q (4*j+3) ^ 2)) * hn

/-- Per-koule goal term bound: the shifted distance to the nearest edge
never exceeds the side length, so the initial accumulator of the fold in
distanceGoal is never the minimum when a koule exists. -/
theorem kouleEdgeDist_le_one (v : ℕ → ℝ) (i : ℕ) : kouleEdgeDist v i ≤ sideLength := by
  simp only [kouleEdgeDist, sideLength, kouleRadius, threshold]
  have h1 : min (v (4*i)) (1 - v (4*i)) ≤ 1/2 := by
    rcases le_total (v (4*i)) (1/2) with hx | hx
    · exact le_trans (min_le_left _ _) hx
    · exact le_trans (min_le_right _ _) (by linarith)
  have h2 : min (min (v (4*i)) (1 - v (4*i))) (min (v (4*i+1)) (1 - v (4*i+1))) ≤ 1/2 :=
    le_trans (min_le_left _ _) h1
  linarith

/-- The running-minimum fold of distanceGoal computes the minimum of its
start value and the pointwise minimum over the range. -/
theorem foldl_min_eq_inf (g : ℕ → ℝ) :
    ∀ (n : ℕ) (hn : n ≠ 0) (a : ℝ),
      (List.range n).foldl (fun m i => min m (g i)) a
        = min a ((Finset.range n).inf' (Finset.nonempty_range_iff.mpr hn) g) := by
  intro n
  induction n with
  | zero => intro hn _; exact absurd rfl hn
  | succ m ih =>
    intro hn a
    rcases Nat.eq_zero_or_pos m with h0 | hmpos
    · subst h0
      simp [List.range_succ, Finset.range_one]
    · have hm0 : m ≠ 0 := Nat.pos_iff_ne_zero.mp hmpos
      rw [List.range_succ, List.foldl_append, List.foldl_cons, List.foldl_nil, ih hm0 a]
      have hins : (Finset.range (m+1)).inf' (Finset.nonempty_range_iff.mpr hn) g
          = min (g m) ((Finset.range m).inf' (Finset.nonempty_range_iff.mpr hm0) g) := by
        apply le_antisymm
        · apply le_min
          · exact Finset.inf'_le _ (Finset.mem_range.mpr (by omega))
          · rw [Finset.le_inf'_iff]
            intro b hb
            exact Finset.inf'_le _ (Finset.mem_range.mpr (by
              have := Finset.mem_range.mp hb
              omega))
        · rw [Finset.le_inf'_iff]
          intro b hb
          rcases Nat.lt_succ_iff_lt_or_eq.mp (Finset.mem_range.mp hb) with hbm | hbm
          · exact le_trans (min_le_right _ _) (Finset.inf'_le _ (Finset.mem_range.mpr hbm))
          · subst hbm
            exact min_le_left _ _
      rw [hins, min_assoc]
      congr 1
      rw [min_comm]

/-- A fold of running minima that ends at or below c started at or below c
or passed an element at or below c. -/
theorem foldl_min_le_cases (g : ℕ → ℝ) (c : ℝ) :
    ∀ (l : List ℕ) (a : ℝ),
      l.foldl (fun m i => min m (g i)) a ≤ c → a ≤ c ∨ ∃ i ∈ l, g i ≤ c := by
  intro l
  induction l with
  | nil => intro a ha; exact Or.inl ha
  | cons x t ih =>
    intro a ha
    rw [List.foldl_cons] at ha
    rcases ih (min a (g x)) ha with hmin | ⟨i, hi, hgi⟩
    · rcases min_le_iff.mp hmin with h1 | h2
      · exact Or.inl h1
      · exact Or.inr ⟨x, List.mem_cons_self x t, h2⟩
    · exact Or.inr ⟨i, List.mem_cons_of_mem x hi, hgi⟩

/-- A koule whose shifted edge distance is nonpositive fails the koule
filter of the next sub-problem. -/
theorem not_keep_of_edgeDist (v : ℕ → ℝ) (i : ℕ) (hle : kouleEdgeDist v i ≤ 0) :
    ¬ keepKoule v i := by
  intro hkeep
  obtain ⟨hmin, hmax⟩ := hkeep
  simp only [kouleEdgeDist, kouleRadius, threshold, sideLength] at hle
  simp only [kouleRadius, sideLength] at hmin hmax
  obtain ⟨hx1, hy1⟩ := lt_min_iff.mp hmin
  obtain ⟨hx2, hy2⟩ := max_lt_iff.mp hmax
  have hminmin : (0.005:ℝ)
      < min (min (v (4*i)) (1 - v (4*i))) (min (v (4*i+1)) (1 - v (4*i+1))) := by
    refine lt_min (lt_min ?_ ?_) (lt_min ?_ ?_) <;> linarith
  linarith

/-- The koule part of the next start state holds at most four entries per
koule of the parent. -/
theorem nextStartKoules_length_le (v : ℕ → ℝ) :
    ∀ n : ℕ, (nextStartKoules v n).length ≤ 4 * n := by
  intro n
  induction n with
  | zero => simp [nextStartKoules]
  | succ m ih =>
    by_cases hk : keepKoule v m
    · simp only [nextStartKoules, if_pos hk, List.length_append, List.length_cons,
        List.length_nil]
      omega
    · simp only [nextStartKoules, if_neg hk, List.length_append, List.length_nil]
      omega

/-- With one dropped koule below n, the koule part of the next start state
loses at least one whole block. -/
theorem nextStartKoules_length_lt (v : ℕ → ℝ) (i : ℕ) (hik : ¬ keepKoule v i) :
    ∀ n : ℕ, i < n → (nextStartKoules v n).length + 4 ≤ 4 * n := by
  intro n
  induction n with
  | zero => intro hlt; omega
  | succ m ih =>
    intro hlt
    by_cases heq : i = m
    · subst heq
      simp only [nextStartKoules, if_neg hik, List.length_append, List.length_nil]
      have hb := nextStartKoules_length_le v i
      omega
    · have hlt2 : i < m := by omega
      have hrec := ih hlt2
      by_cases hk : keepKoule v m
      · simp only [nextStartKoules, if_pos hk, List.length_append, List.length_cons,
          List.length_nil]
        omega
      · simp only [nextStartKoules, if_neg hk, List.length_append, List.length_nil]
        omega

/-! ### Claim theorems -/

/-- Claim C4: after every call to the dynamics integrator propagate, for
every start state, control and positive duration, the ship heading entry of
the result lies in (-pi, pi]. The normalization itself is library code
modelled from the spec (see enforceSO2Bounds). -/
theorem propagate_heading_range (n : ℕ) (cval : ℝ × ℝ) (duration : ℝ) (q0 : ℕ → ℝ)
    (hd : 0 < duration) :
    -Real.pi < propagate n cval duration q0 (4*n + 4)
      ∧ propagate n cval duration q0 (4*n + 4) ≤ Real.pi := by
  have hmem := enforceSO2Bounds_mem (propagateQ n cval duration q0 (4*n + 4))
  simpa [propagate] using hmem

/-- Witness for claim C4 at a concrete input. -/
theorem propagate_heading_range_witness :
    -Real.pi < propagate 0 (0, 0) 1 (fun _ => 0) (4*0 + 4)
      ∧ propagate 0 (0, 0) 1 (fun _ => 0) (4*0 + 4) ≤ Real.pi :=
  propagate_heading_range 0 (0, 0) 1 (fun _ => 0) (by norm_num)

/-- Claim C9: in sampleTo, if the state produced by the very first
propagation step neither satisfies the goal nor is valid, the procedure
returns 0 steps advanced and the dest state equals the source state. -/
theorem sampleTo_first_step_invalid {S : Type} (f : S → S) (g v : S → Bool)
    (steps : ℕ) (source : S)
    (hg : g (f source) = false) (hv : v (f source) = false) :
    sampleTo f g v steps source = (0, source) := by
  simp [sampleTo, hg, hv]

/-- Witness for claim C9 at a concrete input. -/
theorem sampleTo_first_step_invalid_witness :
    sampleTo (fun _ => 5) (fun _ => false) (fun s => decide (s < 3)) 7 (0 : ℕ) = (0, 0) :=
  sampleTo_first_step_invalid (fun _ => 5) (fun _ => false) (fun s => decide (s < 3)) 7 0
    rfl (by decide)

/-- Claim C1, evaluation at the failing input: with the successor as step
function from source 0, all states valid, the goal satisfied exactly at the
states of value at least 2 (so first satisfied at the state produced by
step 2) and budget 5, sampleTo returns 3 steps advanced and the step-3
state, not 2 steps and the step-2 state as the claim requires: the loop
tests the goal on the dest buffer, which holds the freshly propagated
state only on alternate iterations. -/
theorem sampleTo_eval_goal_missed :
    sampleTo (fun s => s + 1) (fun s => decide (2 ≤ s)) (fun _ => true) 5 (0 : ℕ) = (3, 3)
      ∧ (decide (2 ≤ 0 + 1) = false ∧ decide (2 ≤ 0 + 1 + 1) = true) := by
  constructor
  · rfl
  · constructor <;> rfl

/-- Claim C10: in every integration sub-step of update in which the ship is
flagged as having collided, the ship heading entry is left unchanged: the
collision response writes only position and velocity entries, and a flagged
ship is excluded from the Euler update that would integrate its heading. -/
theorem update_ship_collision_heading (n : ℕ) (dt : ℝ) (qdot q : ℕ → ℝ)
    (hship : (collisionPass n dt q).2 n = true) :
    update n dt qdot q (4*n + 4) = q (4*n + 4) := by
  have h1 : ¬(4*n + 4 < 4*n) := by omega
  have h2 : 4*n + 4 < 4*n + 5 := by omega
  simp only [update, if_neg h1, if_pos h2, hship, if_true]
  exact collisionPass_fst_heading n dt q

/-- Claim C6: checkCollision reports a collision exactly when the squared
center distance is below the square of the radius sum plus tolerance and
the bodies are approaching (the relative velocity projected on the
separation vector is negative); when it reports none, the state is
unchanged. -/
theorem checkCollision_detect_iff (n i j : ℕ) (dt : ℝ) (q : ℕ → ℝ) :
    ((checkCollision n i j dt q).1 = true ↔
      (q (4*i) - q (4*j))^2 + (q (4*i+1) - q (4*j+1))^2
          < (getRadius n i + getRadius n j + delta)^2
        ∧ (q (4*i+2) - q (4*j+2)) * (q (4*i) - q (4*j))
            + (q (4*i+3) - q (4*j+3)) * (q (4*i+1) - q (4*j+1)) < 0)
  ∧ ((checkCollision n i j dt q).1 = false → (checkCollision n i j dt q).2 = q) := by
  have hflip : (q (4*i+2) - q (4*j+2)) * (q (4*i) - q (4*j))
      + (q (4*i+3) - q (4*j+3)) * (q (4*i+1) - q (4*j+1))
    = -((q (4*j+2) - q (4*i+2)) * colDx i j q + (q (4*j+3) - q (4*i+3)) * colDy i j q) := by
    simp only [colDx, colDy]; ring
  have hsq1 : (q (4*i) - q (4*j))^2 + (q (4*i+1) - q (4*j+1))^2
      = colDx i j q * colDx i j q + colDy i j q * colDy i j q := by
    simp only [colDx, colDy]; ring
  have hsq2 : (getRadius n i + getRadius n j + delta)^2
      = (getRadius n i + getRadius n j + delta) * (getRadius n i + getRadius n j + delta) := by
    ring
  by_cases hc : collisionCond n i j q
  · have h1 : (checkCollision n i j dt q).1 = true := by simp [checkCollision, hc]
    refine ⟨?_, ?_⟩
    · rw [h1]
      constructor
      · intro _
        refine ⟨?_, ?_⟩
        · rw [hsq1, hsq2]; exact hc.1
        · rw [hflip]; linarith [hc.2]
      · intro _; rfl
    · rw [h1]; intro hfalse; simp at hfalse
  · have h1 : (checkCollision n i j dt q).1 = false := by simp [checkCollision, hc]
    have h2 : (checkCollision n i j dt q).2 = q := by simp [checkCollision, hc]
    refine ⟨?_, fun _ => h2⟩
    rw [h1]
    constructor
    · intro hfalse; simp at hfalse
    · intro hrhs
      exfalso
      apply hc
      refine ⟨?_, ?_⟩
      · have h3 := hrhs.1
        rw [hsq1, hsq2] at h3
        exact h3
      · have h4 := hrhs.2
        rw [hflip] at h4
        linarith


/-- Witness for claim C6 at a concrete input: the koule and the ship of
the state qW are close and approaching, so the detection characterization
reports a collision. -/
theorem checkCollision_detect_iff_witness :
    (checkCollision 1 0 1 (1/100) qW).1 = true :=
  (checkCollision_detect_iff 1 0 1 (1/100) qW).1.mpr
    (by norm_num [qW, getRadius, delta, kouleRadius, shipRadius])

/-- Claim C8: when the squared distance from the ship position to the
target point exceeds the noise threshold, steer returns a positive scalar
multiple of the target vector, equal to the drawn magnitude u times the
normalized target vector, so its magnitude is exactly u; otherwise it
returns the undirected fallback sample. -/
theorem steer_direction (n : ℕ) (q : ℕ → ℝ) (x y u r θ : ℝ)
    (hu1 : shipVmin ≤ u) (hu2 : u ≤ shipVmax) :
    ((x - q (4*n)) * (x - q (4*n)) + (y - q (4*n+1)) * (y - q (4*n+1)) > floatEpsilon →
      (∃ c : ℝ, 0 < c ∧ steer n q x y u r θ = (c * (x - q (4*n)), c * (y - q (4*n+1))))
      ∧ steer n q x y u r θ
          = (u * ((x - q (4*n))
                / Real.sqrt ((x - q (4*n)) * (x - q (4*n)) + (y - q (4*n+1)) * (y - q (4*n+1)))),
             u * ((y - q (4*n+1))
                / Real.sqrt ((x - q (4*n)) * (x - q (4*n)) + (y - q (4*n+1)) * (y - q (4*n+1)))))
      ∧ Real.sqrt ((steer n q x y u r θ).1 ^ 2 + (steer n q x y u r θ).2 ^ 2) = u)
  ∧ (¬ ((x - q (4*n)) * (x - q (4*n)) + (y - q (4*n+1)) * (y - q (4*n+1)) > floatEpsilon) →
      steer n q x y u r θ = undirectedSample r θ) := by
  have hu0 : 0 < u := by
    have : (0:ℝ) < shipVmin := by norm_num [shipVmin, shipVmax, shipAcceleration]
    linarith
  constructor
  · intro hfar
    have hN : 0 < (x - q (4*n)) * (x - q (4*n)) + (y - q (4*n+1)) * (y - q (4*n+1)) := by
      have : (0:ℝ) < floatEpsilon := by norm_num [floatEpsilon]
      linarith
    have hs : 0 < Real.sqrt ((x - q (4*n)) * (x - q (4*n)) + (y - q (4*n+1)) * (y - q (4*n+1))) :=
      Real.sqrt_pos.mpr hN
    have hsteer : steer n q x y u r θ
        = (u / Real.sqrt ((x - q (4*n)) * (x - q (4*n)) + (y - q (4*n+1)) * (y - q (4*n+1)))
             * (x - q (4*n)),
           u / Real.sqrt ((x - q (4*n)) * (x - q (4*n)) + (y - q (4*n+1)) * (y - q (4*n+1)))
             * (y - q (4*n+1))) := by
      simp only [steer, if_pos hfar]
    refine ⟨⟨u / Real.sqrt ((x - q (4*n)) * (x - q (4*n)) + (y - q (4*n+1)) * (y - q (4*n+1))),
        div_pos hu0 hs, hsteer⟩, ?_, ?_⟩
    · rw [hsteer]
      simp only [Prod.mk.injEq]
      constructor <;> ring
    · rw [hsteer]
      have hsq : Real.sqrt ((x - q (4*n)) * (x - q (4*n)) + (y - q (4*n+1)) * (y - q (4*n+1))) ^ 2
          = (x - q (4*n)) * (x - q (4*n)) + (y - q (4*n+1)) * (y - q (4*n+1)) :=
        Real.sq_sqrt hN.le
      have hsum : (u / Real.sqrt ((x - q (4*n)) * (x - q (4*n)) + (y - q (4*n+1)) * (y - q (4*n+1)))
              * (x - q (4*n))) ^ 2
          + (u / Real.sqrt ((x - q (4*n)) * (x - q (4*n)) + (y - q (4*n+1)) * (y - q (4*n+1)))
              * (y - q (4*n+1))) ^ 2
          = u ^ 2 := by
        have hexp : (u / Real.sqrt ((x - q (4*n)) * (x - q (4*n)) + (y - q (4*n+1)) * (y - q (4*n+1)))
                * (x - q (4*n))) ^ 2
            + (u / Real.sqrt ((x - q (4*n)) * (x - q (4*n)) + (y - q (4*n+1)) * (y - q (4*n+1)))
                * (y - q (4*n+1))) ^ 2
            = u ^ 2 * ((x - q (4*n)) * (x - q (4*n)) + (y - q (4*n+1)) * (y - q (4*n+1)))
              / Real.sqrt ((x - q (4*n)) * (x - q (4*n)) + (y - q (4*n+1)) * (y - q (4*n+1))) ^ 2 := by
          ring
        rw [hexp, hsq, mul_div_assoc, div_self hN.ne', mul_one]
      rw [hsum]
      exact Real.sqrt_sq hu0.le
  · intro hnear
    simp only [steer, if_neg hnear]

/-- Witness for claim C8 at a concrete input. -/
theorem steer_direction_witness :
    Real.sqrt ((steer 0 (fun _ => 0) 1 0 (1/10) 0 0).1 ^ 2
        + (steer 0 (fun _ => 0) 1 0 (1/10) 0 0).2 ^ 2) = 1/10 :=
  ((steer_direction 0 (fun _ => 0) 1 0 (1/10) 0 0
      (by norm_num [shipVmin, shipVmax, shipAcceleration])
      (by norm_num [shipVmax, shipAcceleration])).1
    (by norm_num [floatEpsilon])).2.2

/-- Claim C5 (amended): the bang-bang command is exactly one of three
cases and never applies thrust and torque at once: when the squared
velocity error is at most the squared threshold shipDelta, thrust and
torque are all zero (at exactly shipDelta the code keeps zero, where the
original claim prescribed thrust: see the counterexample); when it exceeds
the threshold and the absolute heading error is below shipEps, the thrust
is shipAcceleration along the current heading with zero torque; otherwise
zero thrust and torque shipRotVel signed like the heading error. -/
theorem shipControl_cases (n : ℕ) (cval : ℝ × ℝ) (q : ℕ → ℝ) :
    ((cval.1 - q (4*n+2)) * (cval.1 - q (4*n+2)) + (cval.2 - q (4*n+3)) * (cval.2 - q (4*n+3))
        ≤ shipDelta * shipDelta →
      shipControl n cval q = (0, 0, 0))
  ∧ ((cval.1 - q (4*n+2)) * (cval.1 - q (4*n+2)) + (cval.2 - q (4*n+3)) * (cval.2 - q (4*n+3))
        > shipDelta * shipDelta →
      |signedSO2Distance (atan2 (cval.2 - q (4*n+3)) (cval.1 - q (4*n+2))) (q (4*n+4))| < shipEps →
      shipControl n cval q
        = (shipAcceleration * Real.cos (q (4*n+4)), shipAcceleration * Real.sin (q (4*n+4)), 0))
  ∧ ((cval.1 - q (4*n+2)) * (cval.1 - q (4*n+2)) + (cval.2 - q (4*n+3)) * (cval.2 - q (4*n+3))
        > shipDelta * shipDelta →
      shipEps ≤ |signedSO2Distance (atan2 (cval.2 - q (4*n+3)) (cval.1 - q (4*n+2))) (q (4*n+4))| →
      (shipControl n cval q).1 = 0 ∧ (shipControl n cval q).2.1 = 0
        ∧ ((shipControl n cval q).2.2 = shipRotVel
              ∧ 0 < signedSO2Distance (atan2 (cval.2 - q (4*n+3)) (cval.1 - q (4*n+2))) (q (4*n+4))
            ∨ (shipControl n cval q).2.2 = -shipRotVel
              ∧ signedSO2Distance (atan2 (cval.2 - q (4*n+3)) (cval.1 - q (4*n+2))) (q (4*n+4)) < 0))
  ∧ ((shipControl n cval q).2.2 ≠ 0 →
      (shipControl n cval q).1 = 0 ∧ (shipControl n cval q).2.1 = 0) := by
  have hepspos : (0:ℝ) < shipEps := by
    simp only [shipEps, shipRotVel, propagationStepSize]
    nlinarith [Real.pi_pos]
  refine ⟨?_, ?_, ?_, ?_⟩
  · intro hle
    simp only [shipControl]
    rw [if_neg (not_lt.mpr hle)]
  · intro hgt hlt
    simp only [shipControl]
    rw [if_pos hgt, if_pos hlt]
  · intro hgt hge
    simp only [shipControl]
    rw [if_pos hgt, if_neg (not_lt.mpr hge)]
    by_cases hdt :
        signedSO2Distance (atan2 (cval.2 - q (4*n+3)) (cval.1 - q (4*n+2))) (q (4*n+4)) > 0
    · rw [if_pos hdt]
      exact ⟨rfl, rfl, Or.inl ⟨rfl, hdt⟩⟩
    · rw [if_neg hdt]
      have hneg :
          signedSO2Distance (atan2 (cval.2 - q (4*n+3)) (cval.1 - q (4*n+2))) (q (4*n+4)) < 0 := by
        rcases lt_or_eq_of_le (not_lt.mp hdt) with hlt0 | heq0
        · exact hlt0
        · rw [heq0] at hge
          simp at hge
          linarith
      exact ⟨rfl, rfl, Or.inr ⟨rfl, hneg⟩⟩
  · simp only [shipControl]
    split_ifs with h1 h2 h3
    · intro htq; exact absurd rfl htq
    · intro _; exact ⟨rfl, rfl⟩
    · intro _; exact ⟨rfl, rfl⟩
    · intro htq; exact absurd rfl htq

/-- Witness for claim C5 at a concrete input: a small velocity error gives
the all-zero command through the first case of the theorem. -/
theorem shipControl_cases_witness :
    shipControl 0 (0, 0) (fun _ => 0) = (0, 0, 0) :=
  (shipControl_cases 0 (0, 0) (fun _ => 0)).1
    (by norm_num [shipDelta, shipAcceleration, propagationStepSize])

/-- Claim C5, counterexample to the original wording: with the zero state
and desired velocity (1/40, 0), the velocity error magnitude equals
shipDelta = 1/40 exactly, so it is not below the threshold, and the
heading error is zero, below shipEps; the claim then prescribes full
forward thrust, but the command is (0, 0, 0), which differs from it. -/
theorem shipControl_boundary_counterexample :
    ¬ (Real.sqrt (((1/40 : ℝ) - 0) ^ 2 + ((0:ℝ) - 0) ^ 2) < shipDelta)
  ∧ |signedSO2Distance (atan2 ((0:ℝ) - 0) ((1/40 : ℝ) - 0)) 0| < shipEps
  ∧ shipControl 0 (1/40, 0) (fun _ => 0) = (0, 0, 0)
  ∧ (shipAcceleration * Real.cos (0:ℝ), shipAcceleration * Real.sin (0:ℝ), (0:ℝ))
      ≠ ((0:ℝ), (0:ℝ), (0:ℝ)) := by
  have hpi := Real.pi_pos
  have hsub0 : ((0:ℝ) - 0) = 0 := by norm_num
  have hsub40 : ((1/40 : ℝ) - 0) = 1/40 := by norm_num
  have harg : atan2 ((0:ℝ) - 0) ((1/40 : ℝ) - 0) = 0 := by
    rw [hsub0, hsub40]
    have hmk : (⟨1/40, 0⟩ : ℂ) = ((1/40 : ℝ) : ℂ) := rfl
    simp only [atan2, hmk]
    exact Complex.arg_ofReal_of_nonneg (by norm_num)
  have hso2 : signedSO2Distance (atan2 ((0:ℝ) - 0) ((1/40 : ℝ) - 0)) 0 = 0 := by
    rw [harg]
    simp only [signedSO2Distance]
    rw [if_neg (by nlinarith), if_neg (by nlinarith)]
    norm_num
  refine ⟨?_, ?_, ?_, ?_⟩
  · have hval : Real.sqrt (((1/40 : ℝ) - 0) ^ 2 + ((0:ℝ) - 0) ^ 2) = 1/40 := by
      have hv : ((1/40 : ℝ) - 0) ^ 2 + ((0:ℝ) - 0) ^ 2 = (1/40 : ℝ) ^ 2 := by norm_num
      rw [hv]
      exact Real.sqrt_sq (by norm_num)
    rw [hval]
    norm_num [shipDelta, shipAcceleration, propagationStepSize]
  · rw [hso2]
    simp only [abs_zero]
    simp only [shipEps, shipRotVel, propagationStepSize]
    nlinarith
  · simp only [shipControl]
    rw [if_neg (by norm_num [shipDelta, shipAcceleration, propagationStepSize])]
  · simp only [Real.cos_zero, Real.sin_zero, shipAcceleration, Prod.mk.injEq]
    norm_num

/-- Claim C2: for every pair of bodies that checkCollision reports as
colliding, the post-collision velocities it writes back conserve the total
momentum of the pair componentwise and the total kinetic energy, exactly
over the reals. -/
theorem checkCollision_conserves (n i j : ℕ) (dt : ℝ) (q : ℕ → ℝ)
    (hcol : (checkCollision n i j dt q).1 = true) :
    getMass n i * q (4*i+2) + getMass n j * q (4*j+2)
        = getMass n i * (checkCollision n i j dt q).2 (4*i+2)
          + getMass n j * (checkCollision n i j dt q).2 (4*j+2)
  ∧ getMass n i * q (4*i+3) + getMass n j * q (4*j+3)
        = getMass n i * (checkCollision n i j dt q).2 (4*i+3)
          + getMass n j * (checkCollision n i j dt q).2 (4*j+3)
  ∧ getMass n i * (q (4*i+2) ^ 2 + q (4*i+3) ^ 2)
      + getMass n j * (q (4*j+2) ^ 2 + q (4*j+3) ^ 2)
        = getMass n i * ((checkCollision n i j dt q).2 (4*i+2) ^ 2
            + (checkCollision n i j dt q).2 (4*i+3) ^ 2)
          + getMass n j * ((checkCollision n i j dt q).2 (4*j+2) ^ 2
              + (checkCollision n i j dt q).2 (4*j+3) ^ 2) := by
  have hc : collisionCond n i j q := by
    by_contra hcn
    simp [checkCollision, hcn] at hcol
  have hij : i ≠ j := by
    intro he
    subst he
    have h2 := hc.2
    simp [colDx, colDy, sub_self] at h2
  have hpos : 0 < colDx i j q * colDx i j q + colDy i j q * colDy i j q := by
    by_contra hle
    push_neg at hle
    have hx : colDx i j q = 0 := by
      nlinarith [mul_self_nonneg (colDx i j q), mul_self_nonneg (colDy i j q)]
    have hy : colDy i j q = 0 := by
      nlinarith [mul_self_nonneg (colDx i j q), mul_self_nonneg (colDy i j q)]
    have h2 := hc.2
    rw [hx, hy] at h2
    simp at h2
  have hresp : (checkCollision n i j dt q).2 = collisionResponse n i j dt q := by
    simp [checkCollision, hc]
  have eax : collisionResponse n i j dt q (4*i+2) = aNewVel0 n i j q := by
    have g1 : ¬(4*i+2 = 4*i) := by omega
    have g2 : ¬(4*i+2 = 4*i+1) := by omega
    simp only [collisionResponse, if_neg g1, if_neg g2, if_pos rfl, if_true]
  have eay : collisionResponse n i j dt q (4*i+3) = aNewVel1 n i j q := by
    have g1 : ¬(4*i+3 = 4*i) := by omega
    have g2 : ¬(4*i+3 = 4*i+1) := by omega
    have g3 : ¬(4*i+3 = 4*i+2) := by omega
    simp only [collisionResponse, if_neg g1, if_neg g2, if_neg g3, if_pos rfl, if_true]
  have ebx : collisionResponse n i j dt q (4*j+2) = bNewVel0 n i j q := by
    have g1 : ¬(4*j+2 = 4*i) := by omega
    have g2 : ¬(4*j+2 = 4*i+1) := by omega
    have g3 : ¬(4*j+2 = 4*i+2) := by omega
    have g4 : ¬(4*j+2 = 4*i+3) := by omega
    have g5 : ¬(4*j+2 = 4*j) := by omega
    have g6 : ¬(4*j+2 = 4*j+1) := by omega
    simp only [collisionResponse, if_neg g1, if_neg g2, if_neg g3, if_neg g4,
      if_neg g5, if_neg g6, if_pos rfl, if_true]
  have eby : collisionResponse n i j dt q (4*j+3) = bNewVel1 n i j q := by
    have g1 : ¬(4*j+3 = 4*i) := by omega
    have g2 : ¬(4*j+3 = 4*i+1) := by omega
    have g3 : ¬(4*j+3 = 4*i+2) := by omega
    have g4 : ¬(4*j+3 = 4*i+3) := by omega
    have g5 : ¬(4*j+3 = 4*j) := by omega
    have g6 : ¬(4*j+3 = 4*j+1) := by omega
    have g7 : ¬(4*j+3 = 4*j+2) := by omega
    simp only [collisionResponse, if_neg g1, if_neg g2, if_neg g3, if_neg g4,
      if_neg g5, if_neg g6, if_neg g7, if_pos rfl, if_true]
  rw [hresp, eax, eay, ebx, eby]
  exact ⟨(newVel_momentum_x n i j q hpos).symm, (newVel_momentum_y n i j q hpos).symm,
    (newVel_energy n i j q hpos).symm⟩

/-- Witness for claim C2 at a concrete input: the koule and the ship of
the state qW collide, and x momentum is conserved. -/
theorem checkCollision_conserves_witness :
    (checkCollision 1 0 1 (1/100) qW).1 = true
  ∧ getMass 1 0 * qW 2 + getMass 1 1 * qW 6
      = getMass 1 0 * (checkCollision 1 0 1 (1/100) qW).2 2
        + getMass 1 1 * (checkCollision 1 0 1 (1/100) qW).2 6 := by
  have hc : collisionCond 1 0 1 qW := by
    simp only [collisionCond, colDx, colDy, getRadius, qW, delta, kouleRadius, shipRadius]
    norm_num
  have h1 : (checkCollision 1 0 1 (1/100) qW).1 = true := by
    simp [checkCollision, hc]
  refine ⟨h1, ?_⟩
  have hmain := (checkCollision_conserves 1 0 1 (1/100) qW h1).1
  simpa using hmain

/-- Witness for claim C10 at a concrete input: the koule and the ship of
the state qW collide, so the ship is flagged and the heading entry is
unchanged by update, even under a nonzero derivative vector. -/
theorem update_ship_collision_heading_witness :
    (collisionPass 1 (1/100) qW).2 1 = true
  ∧ update 1 (1/100) (fun _ => 1) qW (4*1 + 4) = qW (4*1 + 4) := by
  have hc : collisionCond 1 0 1 qW := by
    simp only [collisionCond, colDx, colDy, getRadius, qW, delta, kouleRadius, shipRadius]
    norm_num
  have h1 : (checkCollision 1 0 1 (1/100) qW).1 = true := by
    simp [checkCollision, hc]
  have hpairs : collisionPairs 1 = [(0, 1)] := rfl
  have hflag : (collisionPass 1 (1/100) qW).2 1 = true := by
    simp only [collisionPass, hpairs, List.foldl_cons, List.foldl_nil, h1, if_true]
    simp
  exact ⟨hflag, update_ship_collision_heading 1 (1/100) (fun _ => 1) qW hflag⟩

/-- Claim C7: distanceGoal is always nonnegative, and for a positive koule
count it equals the minimum over all koules of the shifted distance to the
nearest of the four arena edges, clamped to zero when negative. -/
theorem distanceGoal_spec (n : ℕ) (v : ℕ → ℝ) :
    0 ≤ distanceGoal n v
  ∧ ∀ (hn : 0 < n),
      distanceGoal n v
        = max 0 ((Finset.range n).inf'
            (Finset.nonempty_range_iff.mpr (Nat.pos_iff_ne_zero.mp hn)) (kouleEdgeDist v)) := by
  constructor
  · simp only [distanceGoal]
    split
    · exact le_refl 0
    · next hlt => exact not_lt.mp hlt
  · intro hn
    have hm0 := Nat.pos_iff_ne_zero.mp hn
    simp only [distanceGoal]
    rw [foldl_min_eq_inf (kouleEdgeDist v) n hm0 sideLength]
    have hle : (Finset.range n).inf' (Finset.nonempty_range_iff.mpr hm0) (kouleEdgeDist v)
        ≤ sideLength := by
      refine le_trans (Finset.inf'_le _ ?_) (kouleEdgeDist_le_one v 0)
      simp only [Finset.mem_range]
      omega
    rw [min_eq_right hle]
    rcases lt_or_ge
        ((Finset.range n).inf' (Finset.nonempty_range_iff.mpr hm0) (kouleEdgeDist v)) 0 with
      hlt | hge
    · rw [if_pos hlt, max_eq_left hlt.le]
    · rw [if_neg (not_lt.mpr hge), max_eq_right hge]

/-- Witness for claim C7 at a concrete input. -/
theorem distanceGoal_spec_witness :
    distanceGoal 1 (fun _ => 0)
      = max 0 ((Finset.range 1).inf'
          (Finset.nonempty_range_iff.mpr (Nat.pos_iff_ne_zero.mp Nat.one_pos))
          (kouleEdgeDist (fun _ => 0))) :=
  (distanceGoal_spec 1 (fun _ => 0)).2 Nat.one_pos

/-- Claim C3: after an exact solution, where the goal is reached at cost
zero, the next start state derived by planAllLevelsRecursive has strictly
fewer koules than its parent: the koule realizing the zero goal distance
is at or past the workspace margin and is dropped by the filter. Goal
satisfaction is library code modelled from the spec (see goalSatisfied). -/
theorem nextStart_fewer_koules (n : ℕ) (s : ℕ → ℝ) (hn : 0 < n)
    (hgoal : goalSatisfied n s) :
    ((nextStart n s).length - 5) / 4 < n := by
  have hm : (List.range n).foldl (fun m i => min m (kouleEdgeDist s i)) sideLength ≤ 0 := by
    have hg := hgoal
    simp only [goalSatisfied, distanceGoal] at hg
    by_cases hlt : (List.range n).foldl (fun m i => min m (kouleEdgeDist s i)) sideLength < 0
    · exact hlt.le
    · rw [if_neg hlt] at hg
      exact le_of_eq hg
  rcases foldl_min_le_cases (kouleEdgeDist s) 0 (List.range n) sideLength hm with
    hside | ⟨i, hi, hgi⟩
  · exact absurd hside (by norm_num [sideLength])
  · have hin : i < n := List.mem_range.mp hi
    have hdrop : ¬ keepKoule s i := not_keep_of_edgeDist s i hgi
    have hlen := nextStartKoules_length_lt s i hdrop n hin
    have hlen5 : (nextStart n s).length = (nextStartKoules s n).length + 5 := by
      simp [nextStart]
    rw [hlen5]
    have h4 : (nextStartKoules s n).length / 4 < n := by
      rw [Nat.div_lt_iff_lt_mul (by norm_num)]
      omega
    simpa using h4

/-- Witness for claim C3 at a concrete input: the zero state has its koule
on the arena corner, the goal cost is zero, and the derived sub-problem has
fewer koules. -/
theorem nextStart_fewer_koules_witness :
    goalSatisfied 1 (fun _ => 0)
  ∧ ((nextStart 1 (fun _ => 0)).length - 5) / 4 < 1 := by
  have hg : goalSatisfied 1 (fun _ => 0) := by
    simp only [goalSatisfied, distanceGoal, List.range_succ, List.range_zero,
      List.nil_append, List.foldl_cons, List.foldl_nil,
      kouleEdgeDist, sideLength, kouleRadius, threshold]
    norm_num [min_def]
  exact ⟨hg, nextStart_fewer_koules 1 (fun _ => 0) Nat.one_pos hg⟩

end Koules

end
